import Mathlib

/-!
Verification development for the online data-processing tool
(`src/api/app.py`, class `DataProcessor`).

The shallow embedding models a pandas DataFrame as a `Table`: an ordered
header of named, typed columns together with a list of rows.  A cell is
`none` when the value is absent (pandas `NaN`); otherwise it holds a
numeric value (drawn from a linear ordered field `α`, idealising IEEE
floats as exact arithmetic) or a text value.  The statistical operations
of `DataProcessor` are translated method by method; `math.sqrt` is kept
abstract as a parameter `sqrt : α → α` so that the development stays
generic, and theorems about actual square roots instantiate `α := ℝ`,
`sqrt := Real.sqrt`.
-/

set_option linter.unusedSectionVars false

namespace DataProc

/-- Column dtype as pandas distinguishes it: `select_dtypes(include=['number'])`
picks exactly the `numeric` columns; everything else (object/text) is `textual`. -/
inductive Dtype where
  | numeric
  | textual
deriving DecidableEq, Repr

/-- A cell of the table: `none` is the absent marker (pandas `NaN`); a present
value is either numeric or text. -/
abbrev Cell (α : Type) := Option (α ⊕ String)

/-- A row is the list of its cells, positionally aligned with the header. -/
abbrev Row (α : Type) := List (Cell α)

/-- A pandas DataFrame: named, typed columns and a list of aligned rows. -/
structure Table (α : Type) where
  header : List (String × Dtype)
  rows : List (Row α)
deriving DecidableEq

variable {α : Type} [LinearOrderedField α]

/-- Numeric value of a cell; an absent or textual cell has none. -/
def cellNum : Cell α → Option α
  | some (Sum.inl q) => some q
  | _ => none

/-- Positions of the numeric columns, i.e. the translation of
`df.select_dtypes(include=['number']).columns` (app.py line 85 etc.). -/
def numericIdxs (h : List (String × Dtype)) : List ℕ :=
  (List.range h.length).filter
    (fun j => decide ((h.getD j ("", Dtype.textual)).2 = Dtype.numeric))

/-- Cell of a row at column position `j` (out of range counts as absent). -/
def cellAt (r : Row α) (j : ℕ) : Cell α := r.getD j none

/-- Row `i` of a table. -/
def rowAt (t : Table α) (i : ℕ) : Row α := t.rows.getD i []

/-- The cells of column `j`, top to bottom. -/
def colCells (t : Table α) (j : ℕ) : List (Cell α) := t.rows.map (fun r => cellAt r j)

/-- The present numeric values of column `j`; pandas reductions
(`mean`, `std`, `quantile`, `min`, `max`, `dropna`) skip absent cells. -/
def presentNums (t : Table α) (j : ℕ) : List α := (colCells t j).filterMap cellNum

/-- Arithmetic mean with total division (`l.sum / l.length`); pandas returns
`NaN` on an empty column, which callers below guard with `isEmpty` checks. -/
def meanD (l : List α) : α := l.sum / (l.length : α)

/-- Pandas `Series.mean()`: `none` models the `NaN` result on an empty list. -/
def mean? (l : List α) : Option α := if l.isEmpty then none else some (meanD l)

/-- Sample variance with denominator `n - 1` (pandas default `ddof=1`).
Pandas yields `NaN` for `n < 2`; every use site below tests `std > 0`,
which `NaN` fails, so returning `0` (which also fails `0 < _`) models the
guard faithfully.  The only unguarded uses are in the t statistic, whose
theorems assume `2 ≤ n` (see `tTwoSample`). -/
def sampleVarD (l : List α) : α :=
  if l.length < 2 then 0
  else ((l.map (fun x => (x - meanD l) ^ 2)).sum) / ((l.length : α) - 1)

/-- Insert into a sorted list (ascending). -/
def insertSorted (x : α) : List α → List α
  | [] => [x]
  | y :: ys => if x ≤ y then x :: y :: ys else y :: insertSorted x ys

/-- Ascending sort, used to take order statistics for quantiles and medians. -/
def sortList (l : List α) : List α := l.foldr insertSorted []

/-- Pandas `Series.quantile(p)` with the default linear interpolation between
order statistics, for `p = num/den`: with sorted values `s` of length `n`,
the rank is `h = (n-1)*p`, and the result is `s[⌊h⌋] + (h-⌊h⌋)*(s[⌊h⌋+1]-s[⌊h⌋])`.
`none` models the `NaN` result when no present value exists. -/
def quantile? (l : List α) (num den : ℕ) : Option α :=
  if l.isEmpty then none
  else
    let s := sortList l
    let n := s.length
    let k := ((n - 1) * num) / den
    let r := ((n - 1) * num) % den
    let x := s.getD k 0
    let y := s.getD (k + 1) x
    some (x + ((r : α) / (den : α)) * (y - x))

/-- Pandas `Series.median()`: middle order statistic, or the average of the
two middle ones for even length; `none` models `NaN` on an empty list. -/
def median? (l : List α) : Option α :=
  if l.isEmpty then none
  else
    let s := sortList l
    let n := s.length
    if n % 2 = 1 then some (s.getD (n / 2) 0)
    else some ((s.getD (n / 2 - 1) 0 + s.getD (n / 2) 0) / 2)

/-- Whether a row has no absent cell; `df.dropna()` keeps exactly these rows. -/
def rowComplete (r : Row α) : Bool := r.all (fun c => c.isSome)

/-- Translation of `df = df.dropna()` (app.py line 54). -/
def dropnaTable (t : Table α) : Table α := ⟨t.header, t.rows.filter rowComplete⟩

/-- Replace the cell at position `j` of a row (positions past the row end are
left alone, matching that pandas column assignment only touches existing rows). -/
def updateCol (f : Cell α → Cell α) : ℕ → Row α → Row α
  | _, [] => []
  | 0, c :: cs => f c :: cs
  | j + 1, c :: cs => c :: updateCol f j cs

/-- Apply `f` to every cell of column `j`: the translation of a pandas
whole-column assignment `df[col] = ...`. -/
def mapCol (t : Table α) (j : ℕ) (f : Cell α → Cell α) : Table α :=
  ⟨t.header, t.rows.map (updateCol f j)⟩

/-- Translation of `df[numeric_cols] = df[numeric_cols].fillna(stat)`
(app.py lines 58 and 62): every statistic is computed on the *input* table,
then each absent cell of a numeric column is replaced by its column's
statistic; a column whose statistic is `NaN` (no present value) is left
with its absent cells. -/
def fillNumStat (stat : List α → Option α) (t : Table α) : Table α :=
  (numericIdxs t.header).foldl
    (fun u j =>
      match stat (presentNums t j) with
      | some m => mapCol u j (fun c => if c = none then some (Sum.inl m) else c)
      | none => u)
    t

/-- Translation of `df = df.fillna(fill_value)` (app.py line 65): every absent
cell of every column is replaced by the literal.  Filling a numeric column
that had absent cells with a text literal promotes its dtype to object,
which `select_dtypes` then excludes; the header update models this. -/
def fillAllTable (t : Table α) (v : α ⊕ String) : Table α :=
  let header' :=
    match v with
    | Sum.inl _ => t.header
    | Sum.inr _ =>
        t.header.mapIdx (fun j nd =>
          if nd.2 = Dtype.numeric ∧ (colCells t j).any (fun c => c.isNone) then (nd.1, Dtype.textual) else nd)
  ⟨header', t.rows.map (fun r => r.map (fun c => some (c.getD v)))⟩

/-- IQR bounds of app.py lines 92-96: `Q1 - 1.5*IQR` and `Q3 + 1.5*IQR` with
`IQR = Q3 - Q1`; `none` models the `NaN` bounds of a column without present
values (every comparison against `NaN` is false, so all rows are dropped). -/
def iqrBounds (l : List α) : Option (α × α) :=
  match quantile? l 1 4, quantile? l 3 4 with
  | some q1, some q3 => some (q1 - 1.5 * (q3 - q1), q3 + 1.5 * (q3 - q1))
  | _, _ => none

/-- One iteration of the IQR loop (app.py line 97):
`df = df[(df[col] >= lower_bound) & (df[col] <= upper_bound)]`.
A row whose cell is absent fails both comparisons (`NaN >= x` and
`NaN <= x` are false in pandas), so it is removed. -/
def iqrFilterCol (u : Table α) (j : ℕ) : Table α :=
  match iqrBounds (presentNums u j) with
  | some (lb, ub) =>
      ⟨u.header, u.rows.filter (fun r =>
        match cellNum (cellAt r j) with
        | some v => decide (lb ≤ v ∧ v ≤ ub)
        | none => false)⟩
  | none => ⟨u.header, u.rows.filter (fun _ => false)⟩

/-- The IQR loop over the numeric columns (computed once on the input table,
as in app.py line 85), re-filtering the running table at each step. -/
def iqrFilterAll (t : Table α) : Table α := (numericIdxs t.header).foldl iqrFilterCol t

/-- One iteration of the z-score outlier loop (app.py lines 110-115).
The source keeps rows with `abs((x - mean)/std) < threshold` where
`std = sqrt(var)`; under `std > 0` (equivalently `0 < var`) this strict
comparison holds exactly when `0 < θ` and `(x - mean)² < θ² * var`, which is
the arithmetic used here so that the test stays inside the field.  An absent
cell gives a `NaN` z-score, which fails the strict comparison, so its row is
removed.  A column with `std = 0` or `std = NaN` fails `std > 0` and
contributes no filtering. -/
def zFilterCol (θ : α) (u : Table α) (j : ℕ) : Table α :=
  let ps := presentNums u j
  let m := meanD ps
  let v := sampleVarD ps
  if 0 < v then
    ⟨u.header, u.rows.filter (fun r =>
      match cellNum (cellAt r j) with
      | some x => decide (0 < θ ∧ (x - m) ^ 2 < θ ^ 2 * v)
      | none => false)⟩
  else u

/-- The z-score outlier loop over the numeric columns. -/
def zFilterAll (θ : α) (t : Table α) : Table α := (numericIdxs t.header).foldl (zFilterCol θ) t

/-- First-occurrence deduplication with an accumulator of already seen
elements: the translation of `df.drop_duplicates()` (app.py line 141),
which keeps the first occurrence of each distinct row in order (pandas
treats `NaN` cells as equal for this purpose, as does `Option` equality). -/
def keepFirsts {β : Type} [DecidableEq β] (seen : List β) : List β → List β
  | [] => []
  | r :: rs => if r ∈ seen then keepFirsts seen rs else r :: keepFirsts (r :: seen) rs

/-- Translation of `df = df.drop_duplicates()`. -/
def dedupTable (t : Table α) : Table α := ⟨t.header, keepFirsts [] t.rows⟩

/-- One iteration of the z-score standardization loop (app.py lines 165-169):
if `std > 0` (equivalently `0 < var`, since `std = sqrt(var)` and a `NaN`
std fails the test), column `j` becomes `(x - mean)/std`; absent cells stay
absent (`NaN` propagates).  Otherwise the column is left unmodified. -/
def zStdCol (sqrt : α → α) (u : Table α) (j : ℕ) : Table α :=
  let ps := presentNums u j
  let m := meanD ps
  let v := sampleVarD ps
  if 0 < v then
    mapCol u j (fun c => (cellNum c).map (fun x => Sum.inl ((x - m) / sqrt v)))
  else u

/-- The z-score standardization loop over the numeric columns. -/
def zStdAll (sqrt : α → α) (t : Table α) : Table α :=
  (numericIdxs t.header).foldl (zStdCol sqrt) t

/-- One iteration of the min-max standardization loop (app.py lines 180-184):
if `max > min`, column `j` becomes `(x - min)/(max - min)`; otherwise (also
when the column has no present value, so both are `NaN`) it is unmodified. -/
def minmaxStdCol (u : Table α) (j : ℕ) : Table α :=
  match (presentNums u j).min?, (presentNums u j).max? with
  | some mn, some mx =>
      if mn < mx then
        mapCol u j (fun c => (cellNum c).map (fun x => Sum.inl ((x - mn) / (mx - mn))))
      else u
  | _, _ => u

/-- The min-max standardization loop over the numeric columns. -/
def minmaxStdAll (t : Table α) : Table α :=
  (numericIdxs t.header).foldl minmaxStdCol t

/-- Paired present values of two numeric columns: pandas `corr()` uses
pairwise-complete observations, dropping a row for a pair whenever either
cell is absent. -/
def pairedNums (t : Table α) (j k : ℕ) : List (α × α) :=
  t.rows.filterMap (fun r =>
    match cellNum (cellAt r j), cellNum (cellAt r k) with
    | some x, some y => some (x, y)
    | _, _ => none)

/-- Sample covariance (denominator `n - 1`) of a list of pairs. -/
def sampleCov (ps : List (α × α)) : α :=
  let mx := meanD (ps.map Prod.fst)
  let my := meanD (ps.map Prod.snd)
  ((ps.map (fun p => (p.1 - mx) * (p.2 - my))).sum) / ((ps.length : α) - 1)

/-- One entry of `df[numeric_cols].corr()` (app.py line 212): the Pearson
coefficient `cov/(sx*sy)` over the pairwise-complete observations of columns
`j` and `k`; `none` models the `NaN` entries pandas produces when fewer than
two pairs exist or either sample variance vanishes. -/
def corrCell (sqrt : α → α) (t : Table α) (j k : ℕ) : Cell α :=
  let ps := pairedNums t j k
  let vx := sampleVarD (ps.map Prod.fst)
  let vy := sampleVarD (ps.map Prod.snd)
  if 2 ≤ ps.length ∧ 0 < vx ∧ 0 < vy then
    some (Sum.inl (sampleCov ps / (sqrt vx * sqrt vy)))
  else none

/-- Name of column `j`. -/
def colName (h : List (String × Dtype)) (j : ℕ) : String := (h.getD j ("", Dtype.textual)).1

/-- The correlation matrix `df[numeric_cols].corr()` as a table: one row and
one (numeric) column per numeric column of the input.  The pandas row index
is not part of the table (the export writes `index=False`). -/
def corrTable (sqrt : α → α) (t : Table α) : Table α :=
  let js := numericIdxs t.header
  ⟨js.map (fun j => (colName t.header j, Dtype.numeric)),
   js.map (fun j => js.map (fun k => corrCell sqrt t j k))⟩

/-- Round half to even to an integer (the tie-breaking rule of numpy's
`round`, idealised over exact arithmetic). -/
def roundHalfEven [FloorRing α] (x : α) : ℤ :=
  let n := ⌊x⌋
  let f := x - (n : α)
  if f < 1 / 2 then n
  else if 1 / 2 < f then n + 1
  else if Even n then n else n + 1

/-- Round to 4 decimal places, as in `corr_matrix.round(4)` (app.py line 224). -/
def round4 [FloorRing α] (x : α) : α := ((roundHalfEven (10000 * x) : ℤ) : α) / 10000

/-- Translation of `DataFrame.round(4)`: every present value of a numeric
column is rounded to 4 decimal places; absent cells and textual columns are
untouched. -/
def roundTable4 [FloorRing α] (t : Table α) : Table α :=
  (numericIdxs t.header).foldl
    (fun u j => mapCol u j (fun c => (cellNum c).map (fun x => Sum.inl (round4 x)))) t

/-- The column names of a header, `df.columns`. -/
def headerNames (h : List (String × Dtype)) : List String := h.map Prod.fst

/-- Dtype of the named column (first match; the data model keeps names unique). -/
def dtypeOf (h : List (String × Dtype)) (name : String) : Option Dtype :=
  (h.find? (fun nd => nd.1 = name)).map Prod.snd

/-- Position of the named column. -/
def colIdxOf (h : List (String × Dtype)) (name : String) : ℕ :=
  h.findIdx (fun nd => nd.1 = name)

/-- Distinct present cell values of a column in order of first occurrence,
the categories of `pd.crosstab`.  (Pandas sorts the categories; no property
below inspects their order, so first-occurrence order is used.) -/
def cats (t : Table α) (j : ℕ) : List (α ⊕ String) :=
  keepFirsts [] ((colCells t j).filterMap id)

/-- Number of rows where column `j` holds `a` and column `k` holds `b`
(rows with an absent cell in either column never match, as `pd.crosstab`
drops them). -/
def countPairs (t : Table α) (j k : ℕ) (a b : α ⊕ String) : ℕ :=
  (t.rows.filter (fun r => cellAt r j = some a ∧ cellAt r k = some b)).length

/-- Column title of a crosstab category: pandas uses the category value
itself; a numeric category's rendered text is not representable for a
generic `α` and no property below reads these names. -/
def catName : α ⊕ String → String
  | Sum.inr s => s
  | Sum.inl _ => ""

/-- Translation of `pd.crosstab(df[column1], df[column2])` (app.py line 311):
the contingency table of joint frequencies, one row per category of column
`j` and one numeric column per category of column `k`.  The pandas row index
is not part of the table (the export writes `index=False`). -/
def crosstabTable (t : Table α) (j k : ℕ) : Table α :=
  let cs1 := cats t j
  let cs2 := cats t k
  ⟨cs2.map (fun b => (catName b, Dtype.numeric)),
   cs1.map (fun a => cs2.map (fun b => some (Sum.inl ((countPairs t j k a b : ℕ) : α))))⟩

/-- One-sample t statistic (app.py lines 277-282): `(mean - value)/(std/sqrt n)`
over the column with absent values dropped; `std = sqrt(var)` with sample
variance.  (For `n < 2` the source produces `NaN` where this total-arithmetic
model produces a junk value; no theorem below reaches that region.) -/
def tOneSample (sqrt : α → α) (xs : List α) (v : α) : α :=
  (meanD xs - v) / (sqrt (sampleVarD xs) / sqrt ((xs.length : ℕ) : α))

/-- Two-sample pooled-variance t statistic (app.py lines 249-258), with
means, sample variances and sizes taken over each column after dropping
absent values.  (For `n1 < 2` or `n2 < 2` the source produces `NaN` where
this total-arithmetic model produces a junk value; the theorems below
assume `2 ≤ n1` and `2 ≤ n2`.) -/
def tTwoSample (sqrt : α → α) (xs ys : List α) : α :=
  let m1 := meanD xs
  let m2 := meanD ys
  let v1 := sampleVarD xs
  let v2 := sampleVarD ys
  let n1 : α := ((xs.length : ℕ) : α)
  let n2 : α := ((ys.length : ℕ) : α)
  let pooled := ((n1 - 1) * v1 + (n2 - 1) * v2) / (n1 + n2 - 2)
  (m1 - m2) / sqrt (pooled * (1 / n1 + 1 / n2))

/-- An entry of the operation log `code_history`.  Each constructor stands
for one of the literal strings the source appends: `comment` for the
label lines starting with `#`, and one constructor per generated code
fragment, carrying the parameters the source interpolates into the text. -/
inductive Frag (α : Type) where
  | importPandas
  | comment (s : String)
  | loadStmt (filename : String)
  | dropnaFrag
  | fillMeanFrag
  | fillMedianFrag
  | fillValFrag (v : α ⊕ String)
  | iqrFrag
  | zscoreFrag (θ : α)
  | dropDupFrag
  | zStdFrag
  | minmaxStdFrag
  | corrFrag
  | tTwoFrag (c1 c2 : String)
  | tOneFrag (c1 : String) (v : α)
  | chiFrag (c1 c2 : String)
deriving DecidableEq

/-- Replay semantics of one logged fragment, acting on the script variable
`df`, with `t0` the freshly ingested original table assigned by the load
statement.  Comment lines and `import` do nothing.  The fragments for the
transforms reassign `df` with exactly the pandas expression the session
itself executed.  The fragments for correlation, t-test and chi-square only
bind local variables and `print` (app.py lines 214-218, 260-292, 326-341):
they never reassign `df`, so their replay action is the identity. -/
def fragStep (sqrt : α → α) (t0 : Table α) : Frag α → Table α → Table α
  | .importPandas => id
  | .comment _ => id
  | .loadStmt _ => fun _ => t0
  | .dropnaFrag => dropnaTable
  | .fillMeanFrag => fillNumStat mean?
  | .fillMedianFrag => fillNumStat median?
  | .fillValFrag v => (fillAllTable · v)
  | .iqrFrag => iqrFilterAll
  | .zscoreFrag θ => zFilterAll θ
  | .dropDupFrag => dedupTable
  | .zStdFrag => zStdAll sqrt
  | .minmaxStdFrag => minmaxStdAll
  | .corrFrag => id
  | .tTwoFrag _ _ => id
  | .tOneFrag _ _ => id
  | .chiFrag _ _ => id

/-- A loaded pipeline session: the current table `df` and the operation log
`code_history`, exactly the mutable state of `DataProcessor`. -/
structure Session (α : Type) where
  df : Table α
  code_history : List (Frag α)
deriving DecidableEq

/-- Session right after `load_data_from_base64` ingested `t0`: the log is
reset to the import line, the load label and the load statement
(app.py lines 37-41). -/
def initSession (t0 : Table α) (filename : String) : Session α :=
  ⟨t0, [.importPandas, .comment "# 读取Excel文件", .loadStmt filename]⟩

/-- Running the accumulated script from scratch: each fragment in order,
against a fresh ingestion `t0` of the original file. -/
def replay (sqrt : α → α) (t0 : Table α) (frags : List (Frag α)) : Table α :=
  frags.foldl (fun df f => fragStep sqrt t0 f df) t0

/-- Translation of `DataProcessor.handle_missing_values` (app.py lines 48-79):
the four method tags in order; `value` additionally requires a fill literal.
Any other combination returns failure before touching table or log. -/
def handle_missing_values (s : Session α) (method : String) (fv : Option (α ⊕ String)) :
    Session α × Bool :=
  if method = "drop" then
    (⟨dropnaTable s.df,
      s.code_history ++ [.comment ("# 处理缺失值 - " ++ method), .dropnaFrag]⟩, true)
  else if method = "mean" then
    (⟨fillNumStat mean? s.df,
      s.code_history ++ [.comment ("# 处理缺失值 - " ++ method), .fillMeanFrag]⟩, true)
  else if method = "median" then
    (⟨fillNumStat median? s.df,
      s.code_history ++ [.comment ("# 处理缺失值 - " ++ method), .fillMedianFrag]⟩, true)
  else if method = "value" then
    match fv with
    | some v =>
        (⟨fillAllTable s.df v,
          s.code_history ++ [.comment ("# 处理缺失值 - " ++ method), .fillValFrag v]⟩, true)
    | none => (s, false)
  else (s, false)

/-- Translation of `DataProcessor.handle_outliers` (app.py lines 81-135).
With no numeric column the call fails before touching anything.  With an
unrecognised method tag the source *does* append the label comment
(line 126 runs), and then line 127 raises `UnboundLocalError` because the
local `code` was never assigned; the exception handler turns this into a
failure result, but the label is already in the log. -/
def handle_outliers (s : Session α) (method : String) (θ : α) : Session α × Bool :=
  if numericIdxs s.df.header = [] then (s, false)
  else if method = "iqr" then
    (⟨iqrFilterAll s.df,
      s.code_history ++ [.comment ("# 处理异常值 - " ++ method), .iqrFrag]⟩, true)
  else if method = "zscore" then
    (⟨zFilterAll θ s.df,
      s.code_history ++ [.comment ("# 处理异常值 - " ++ method), .zscoreFrag θ]⟩, true)
  else
    (⟨s.df, s.code_history ++ [.comment ("# 处理异常值 - " ++ method)]⟩, false)

/-- Translation of `DataProcessor.handle_duplicates` (app.py lines 137-154). -/
def handle_duplicates (s : Session α) : Session α × Bool :=
  (⟨dedupTable s.df, s.code_history ++ [.comment "# 删除重复行", .dropDupFrag]⟩, true)

/-- Translation of `DataProcessor.standardize_data` (app.py lines 156-202).
The unrecognised-method case mirrors the same partial-append slip as
`handle_outliers`: line 194 appends the label, line 195 raises on the
unassigned local `code`. -/
def standardize_data (sqrt : α → α) (s : Session α) (method : String) : Session α × Bool :=
  if numericIdxs s.df.header = [] then (s, false)
  else if method = "zscore" then
    (⟨zStdAll sqrt s.df,
      s.code_history ++ [.comment ("# 数据标准化 - " ++ method), .zStdFrag]⟩, true)
  else if method = "minmax" then
    (⟨minmaxStdAll s.df,
      s.code_history ++ [.comment ("# 数据标准化 - " ++ method), .minmaxStdFrag]⟩, true)
  else
    (⟨s.df, s.code_history ++ [.comment ("# 数据标准化 - " ++ method)]⟩, false)

/-- Translation of `DataProcessor.correlation_analysis` (app.py lines 204-231):
needs at least two numeric columns; on success it appends the label and the
(print-only) fragment and then replaces the session table by the correlation
matrix rounded to 4 decimal places (line 224). -/
def correlation_analysis [FloorRing α] (sqrt : α → α) (s : Session α) : Session α × Bool :=
  if (numericIdxs s.df.header).length < 2 then (s, false)
  else
    (⟨roundTable4 (corrTable sqrt s.df),
      s.code_history ++ [.comment "# 相关性分析", .corrFrag]⟩, true)

/-- Truthiness of the optional `column2` argument: Python's `if column2:`
is false for `None` and for the empty string. -/
def isTruthy : Option String → Bool
  | none => false
  | some s => !s.isEmpty

/-- Translation of `DataProcessor.t_test` (app.py lines 233-302).  The third
component is the computed t statistic, which the source interpolates into
the result message.  The two-sample branch is taken whenever `column2` is
truthy (the comparison `value` is then never read); an empty sample there
raises `ZeroDivisionError` at `1/n1` (line 258), a failure.  The one-sample
branch requires `value`; its arithmetic never raises (numpy `NaN`
propagates), so it succeeds whenever the column checks pass. -/
def t_test (sqrt : α → α) (s : Session α) (column1 : String) (column2 : Option String)
    (value : Option α) : Session α × Bool × Option α :=
  if column1 ∉ headerNames s.df.header then (s, false, none)
  else if dtypeOf s.df.header column1 ≠ some Dtype.numeric then (s, false, none)
  else if isTruthy column2 then
    let c2 := column2.getD ""
    if c2 ∉ headerNames s.df.header then (s, false, none)
    else if dtypeOf s.df.header c2 ≠ some Dtype.numeric then (s, false, none)
    else
      let xs := presentNums s.df (colIdxOf s.df.header column1)
      let ys := presentNums s.df (colIdxOf s.df.header c2)
      if xs.length = 0 ∨ ys.length = 0 then (s, false, none)
      else
        (⟨s.df, s.code_history ++ [.comment "# t检验", .tTwoFrag column1 c2]⟩, true,
         some (tTwoSample sqrt xs ys))
  else
    match value with
    | none => (s, false, none)
    | some v =>
        let xs := presentNums s.df (colIdxOf s.df.header column1)
        (⟨s.df, s.code_history ++ [.comment "# t检验", .tOneFrag column1 v]⟩, true,
         some (tOneSample sqrt xs v))

/-- Translation of `DataProcessor.chi_square_test` (app.py lines 304-354):
both columns must exist; on success the log gains the label and the
(print-only) fragment and the session table becomes the contingency table
(line 347).  The chi-square statistic itself only appears in the result
message and no property below reads it. -/
def chi_square_test (s : Session α) (c1 c2 : String) : Session α × Bool :=
  if c1 ∉ headerNames s.df.header ∨ c2 ∉ headerNames s.df.header then (s, false)
  else
    (⟨crosstabTable s.df (colIdxOf s.df.header c1) (colIdxOf s.df.header c2),
      s.code_history ++ [.comment "# 卡方检验", .chiFrag c1 c2]⟩, true)

/-- An operation call as dispatched by the `/process` route
(app.py lines 1050-1079): the operation tag with its parameters. -/
inductive Op (α : Type) where
  | missing (method : String) (fv : Option (α ⊕ String))
  | outliers (method : String) (θ : α)
  | duplicates
  | standardize (method : String)
  | correlation
  | ttest (c1 : String) (c2 : Option String) (v : Option α)
  | chisq (c1 c2 : String)
deriving DecidableEq

/-- Dispatch of one operation call against the session, returning the new
session state and the success flag. -/
def applyOp [FloorRing α] (sqrt : α → α) (op : Op α) (s : Session α) : Session α × Bool :=
  match op with
  | .missing m fv => handle_missing_values s m fv
  | .outliers m θ => handle_outliers s m θ
  | .duplicates => handle_duplicates s
  | .standardize m => standardize_data sqrt s m
  | .correlation => correlation_analysis sqrt s
  | .ttest c1 c2 v =>
      let r := t_test sqrt s c1 c2 v
      (r.1, r.2.1)
  | .chisq c1 c2 => chi_square_test s c1 c2

/-- A sequence of operation calls applied in order. -/
def applySeq [FloorRing α] (sqrt : α → α) (ops : List (Op α)) (s : Session α) : Session α :=
  ops.foldl (fun s op => (applyOp sqrt op s).1) s

/-- Operations that are plain row transforms: everything except the two
analyses (correlation, chi-square) whose result matrix replaces the table. -/
def analysisFree : Op α → Bool
  | .correlation => false
  | .chisq _ _ => false
  | _ => true

/-- The log entries a *failing* call appends: empty, except for the
unrecognised-method slip of `handle_outliers` and `standardize_data`
described above, which appends exactly the label comment. -/
def failAppend (op : Op α) (s : Session α) : List (Frag α) :=
  match op with
  | .outliers m _ =>
      if numericIdxs s.df.header ≠ [] ∧ m ≠ "iqr" ∧ m ≠ "zscore" then
        [.comment ("# 处理异常值 - " ++ m)]
      else []
  | .standardize m =>
      if numericIdxs s.df.header ≠ [] ∧ m ≠ "zscore" ∧ m ≠ "minmax" then
        [.comment ("# 数据标准化 - " ++ m)]
      else []
  | _ => []

/-- The `/download` route serialises exactly the session's current table
(`to_excel`, app.py lines 360-369). -/
def exportTable (s : Session α) : Table α := s.df

/-- Spec-side description of deduplication, following the claim's words:
walk the rows in order, keeping `earlier` as the list of *all* preceding
rows; a row that is an exact duplicate of an earlier row is removed, any
other row is kept, so the first occurrence of each distinct row survives
and the relative order of kept rows is preserved. -/
def dedupSpecAux {β : Type} [DecidableEq β] (earlier : List β) : List β → List β
  | [] => []
  | r :: rs =>
      if r ∈ earlier then dedupSpecAux (earlier ++ [r]) rs
      else r :: dedupSpecAux (earlier ++ [r]) rs

/-- Spec-side deduplication of a row list (no rows precede the first). -/
def dedupSpec {β : Type} [DecidableEq β] (l : List β) : List β := dedupSpecAux [] l

/-- The operations the spec classifies as filtering (drop-missing, outlier
removal, deduplication). -/
def isFilterOp : Op α → Bool
  | .missing m _ => m == "drop"
  | .outliers _ _ => true
  | .duplicates => true
  | _ => false

/-- The operations the spec classifies as exactly row-count preserving
(both standardization methods, and the mean/median/literal fill methods). -/
def isPreservingOp : Op α → Bool
  | .missing m _ => m == "mean" || m == "median" || m == "value"
  | .standardize _ => true
  | _ => false

/-- Concrete three-row table with two numeric columns (column `y` constant),
used by several witnesses. -/
def tblA : Table ℝ :=
  ⟨[("x", Dtype.numeric), ("y", Dtype.numeric)],
   [[some (Sum.inl 1), some (Sum.inl 2)],
    [some (Sum.inl 2), some (Sum.inl 2)],
    [some (Sum.inl 3), some (Sum.inl 2)]]⟩

/-- Concrete one-column table whose last row has an absent cell. -/
def tblB : Table ℚ :=
  ⟨[("x", Dtype.numeric)],
   [[some (Sum.inl 1)], [some (Sum.inl 2)], [some (Sum.inl 3)], [some (Sum.inl 4)], [none]]⟩

/-- Concrete one-column one-row table. -/
def tblC : Table ℚ := ⟨[("x", Dtype.numeric)], [[some (Sum.inl 1)]]⟩

/-- Concrete two-column table used for the t-test statements: `a` has values
1,2,3 and `b` is constantly 2, so both samples have mean 2. -/
def tblT : Table ℝ :=
  ⟨[("a", Dtype.numeric), ("b", Dtype.numeric)],
   [[some (Sum.inl 1), some (Sum.inl 2)],
    [some (Sum.inl 2), some (Sum.inl 2)],
    [some (Sum.inl 3), some (Sum.inl 2)]]⟩

section Lemmas

theorem keepFirsts_sublist {β : Type} [DecidableEq β] (seen l : List β) :
    (keepFirsts seen l).Sublist l := by
  induction l generalizing seen with
  | nil => simp [keepFirsts]
  | cons r rs ih =>
    simp only [keepFirsts]
    split
    · exact (ih seen).cons r
    · exact (ih (r :: seen)).cons₂ r

theorem mem_keepFirsts {β : Type} [DecidableEq β] (seen l : List β) (x : β) :
    x ∈ keepFirsts seen l ↔ x ∈ l ∧ x ∉ seen := by
  induction l generalizing seen with
  | nil => simp [keepFirsts]
  | cons r rs ih =>
    simp only [keepFirsts]
    split
    · rename_i hr
      rw [ih, List.mem_cons]
      constructor
      · rintro ⟨hx, hs⟩
        exact ⟨Or.inr hx, hs⟩
      · rintro ⟨hx, hs⟩
        rcases hx with rfl | hx
        · exact absurd hr hs
        · exact ⟨hx, hs⟩
    · rename_i hr
      simp only [List.mem_cons, ih]
      constructor
      · rintro (rfl | ⟨hx, hs⟩)
        · exact ⟨Or.inl rfl, hr⟩
        · exact ⟨Or.inr hx, fun hxs => hs (Or.inr hxs)⟩
      · rintro ⟨hxr | hx, hs⟩
        · exact Or.inl hxr
        · rcases eq_or_ne x r with h | h
          · exact Or.inl h
          · exact Or.inr ⟨hx, fun hmem => hmem.elim h hs⟩

theorem keepFirsts_nodup {β : Type} [DecidableEq β] (seen l : List β) :
    (keepFirsts seen l).Nodup := by
  induction l generalizing seen with
  | nil => simp [keepFirsts]
  | cons r rs ih =>
    simp only [keepFirsts]
    split
    · exact ih seen
    · refine List.nodup_cons.mpr ⟨?_, ih (r :: seen)⟩
      intro hr
      exact ((mem_keepFirsts _ _ _).mp hr).2 (List.mem_cons_self r seen)

theorem keepFirsts_eq_self {β : Type} [DecidableEq β] (seen l : List β)
    (hn : l.Nodup) (hd : ∀ x ∈ l, x ∉ seen) : keepFirsts seen l = l := by
  induction l generalizing seen with
  | nil => simp [keepFirsts]
  | cons r rs ih =>
    rw [List.nodup_cons] at hn
    simp only [keepFirsts]
    rw [if_neg (hd r (List.mem_cons_self r rs))]
    congr 1
    refine ih (r :: seen) hn.2 ?_
    intro x hx
    rw [List.mem_cons]
    push_neg
    exact ⟨fun hxr => hn.1 (hxr ▸ hx), hd x (List.mem_cons_of_mem _ hx)⟩

theorem keepFirsts_eq_dedupSpecAux {β : Type} [DecidableEq β] (seen earlier l : List β)
    (h : ∀ x, x ∈ seen ↔ x ∈ earlier) : keepFirsts seen l = dedupSpecAux earlier l := by
  induction l generalizing seen earlier with
  | nil => rfl
  | cons r rs ih =>
    simp only [keepFirsts, dedupSpecAux]
    by_cases hr : r ∈ seen
    · rw [if_pos hr, if_pos ((h r).mp hr)]
      refine ih seen (earlier ++ [r]) ?_
      intro x
      rw [h, List.mem_append, List.mem_singleton]
      constructor
      · exact Or.inl
      · rintro (hx | rfl)
        · exact hx
        · exact (h x).mp hr
    · rw [if_neg hr, if_neg (fun he => hr ((h r).mpr he))]
      congr 1
      refine ih (r :: seen) (earlier ++ [r]) ?_
      intro x
      rw [List.mem_cons, h, List.mem_append, List.mem_singleton]
      tauto

theorem keepFirsts_idem {β : Type} [DecidableEq β] (l : List β) :
    keepFirsts [] (keepFirsts [] l) = keepFirsts [] l :=
  keepFirsts_eq_self _ _ (keepFirsts_nodup [] l) (fun _ _ => List.not_mem_nil _)

theorem iqrFilterCol_rows_sublist (u : Table α) (j : ℕ) :
    (iqrFilterCol u j).rows.Sublist u.rows := by
  simp only [iqrFilterCol]
  cases iqrBounds (presentNums u j) with
  | none => exact List.filter_sublist _
  | some b =>
    obtain ⟨lb, ub⟩ := b
    exact List.filter_sublist _

theorem zFilterCol_rows_sublist (θ : α) (u : Table α) (j : ℕ) :
    (zFilterCol θ u j).rows.Sublist u.rows := by
  simp only [zFilterCol]
  split
  · exact List.filter_sublist _
  · exact List.Sublist.refl _

theorem foldl_rows_sublist (F : Table α → ℕ → Table α)
    (hF : ∀ u j, (F u j).rows.Sublist u.rows) (js : List ℕ) (t : Table α) :
    ((js.foldl F t).rows).Sublist t.rows := by
  induction js generalizing t with
  | nil => exact List.Sublist.refl _
  | cons j js ih => exact (ih (F t j)).trans (hF t j)

theorem iqrFilterAll_rows_sublist (t : Table α) : (iqrFilterAll t).rows.Sublist t.rows :=
  foldl_rows_sublist _ iqrFilterCol_rows_sublist _ t

theorem zFilterAll_rows_sublist (θ : α) (t : Table α) : (zFilterAll θ t).rows.Sublist t.rows :=
  foldl_rows_sublist _ (zFilterCol_rows_sublist θ) _ t

theorem mapCol_header (t : Table α) (j : ℕ) (f : Cell α → Cell α) :
    (mapCol t j f).header = t.header := rfl

theorem mapCol_rows_length (t : Table α) (j : ℕ) (f : Cell α → Cell α) :
    (mapCol t j f).rows.length = t.rows.length := by
  simp [mapCol]

theorem foldl_rows_length (F : Table α → ℕ → Table α)
    (hF : ∀ u j, (F u j).rows.length = u.rows.length) (js : List ℕ) (t : Table α) :
    (js.foldl F t).rows.length = t.rows.length := by
  induction js generalizing t with
  | nil => rfl
  | cons j js ih => rw [List.foldl_cons, ih (F t j), hF t j]

theorem zStdCol_rows_length (sqrt : α → α) (u : Table α) (j : ℕ) :
    (zStdCol sqrt u j).rows.length = u.rows.length := by
  simp only [zStdCol]
  split
  · exact mapCol_rows_length u j _
  · rfl

theorem minmaxStdCol_rows_length (u : Table α) (j : ℕ) :
    (minmaxStdCol u j).rows.length = u.rows.length := by
  simp only [minmaxStdCol]
  split
  · split
    · exact mapCol_rows_length u j _
    · rfl
  · rfl

theorem zStdAll_rows_length (sqrt : α → α) (t : Table α) :
    (zStdAll sqrt t).rows.length = t.rows.length :=
  foldl_rows_length _ (zStdCol_rows_length sqrt) _ t

theorem minmaxStdAll_rows_length (t : Table α) :
    (minmaxStdAll t).rows.length = t.rows.length :=
  foldl_rows_length _ minmaxStdCol_rows_length _ t

theorem fillNumStat_rows_length (stat : List α → Option α) (t : Table α) :
    (fillNumStat stat t).rows.length = t.rows.length := by
  simp only [fillNumStat]
  refine foldl_rows_length _ ?_ _ t
  intro u j
  cases stat (presentNums t j) with
  | none => rfl
  | some m => exact mapCol_rows_length u j _

theorem fillAllTable_rows_length (t : Table α) (v : α ⊕ String) :
    (fillAllTable t v).rows.length = t.rows.length := by
  simp [fillAllTable]

theorem iqrFilterCol_mem_present (u : Table α) (j : ℕ) (r : Row α)
    (hr : r ∈ (iqrFilterCol u j).rows) : (cellNum (cellAt r j)).isSome := by
  rcases hb : iqrBounds (presentNums u j) with _ | ⟨lb, ub⟩
  · simp only [iqrFilterCol, hb, List.mem_filter] at hr
    exact absurd hr.2 (by simp)
  · simp only [iqrFilterCol, hb, List.mem_filter] at hr
    have hp := hr.2
    cases cn : cellNum (cellAt r j) with
    | none => rw [cn] at hp; exact absurd hp (by simp)
    | some v => simp [cn]

theorem foldl_iqr_present (js : List ℕ) (j : ℕ) (t : Table α) (r : Row α)
    (hj : j ∈ js) (hr : r ∈ (js.foldl iqrFilterCol t).rows) :
    (cellNum (cellAt r j)).isSome := by
  induction js generalizing t with
  | nil => cases hj
  | cons a as ih =>
    rw [List.foldl_cons] at hr
    rcases List.mem_cons.mp hj with rfl | hj2
    · by_cases ha : j ∈ as
      · exact ih _ ha hr
      · exact iqrFilterCol_mem_present t j r
          ((foldl_rows_sublist _ iqrFilterCol_rows_sublist as _).subset hr)
    · exact ih _ hj2 hr

theorem zFilterCol_mem_present (θ : α) (u : Table α) (j : ℕ)
    (hv : 0 < sampleVarD (presentNums u j)) (r : Row α)
    (hr : r ∈ (zFilterCol θ u j).rows) : (cellNum (cellAt r j)).isSome := by
  simp only [zFilterCol, if_pos hv, List.mem_filter] at hr
  have hp := hr.2
  cases cn : cellNum (cellAt r j) with
  | none => rw [cn] at hp; exact absurd hp (by simp)
  | some v => simp

theorem updateCol_length (f : Cell α → Cell α) (j : ℕ) (r : Row α) :
    (updateCol f j r).length = r.length := by
  induction r generalizing j with
  | nil => cases j <;> rfl
  | cons c cs ih =>
    cases j with
    | zero => rfl
    | succ j => simpa [updateCol] using ih j

theorem updateCol_getD_ne (f : Cell α → Cell α) (j k : ℕ) (r : Row α) (hkj : k ≠ j) :
    (updateCol f j r).getD k none = r.getD k none := by
  induction r generalizing j k with
  | nil => cases j <;> rfl
  | cons c cs ih =>
    cases j with
    | zero =>
      cases k with
      | zero => exact absurd rfl hkj
      | succ k => rfl
    | succ j =>
      cases k with
      | zero => rfl
      | succ k => exact ih j k (fun h => hkj (by rw [h]))

theorem updateCol_getD_self (f : Cell α → Cell α) (j : ℕ) (r : Row α)
    (hf : f none = none) : (updateCol f j r).getD j none = f (r.getD j none) := by
  induction r generalizing j with
  | nil => cases j <;> simp [updateCol, hf]
  | cons c cs ih =>
    cases j with
    | zero => rfl
    | succ j => simpa [updateCol] using ih j

theorem rowAt_mapCol (u : Table α) (j : ℕ) (f : Cell α → Cell α) (i : ℕ) :
    rowAt (mapCol u j f) i = updateCol f j (rowAt u i) := by
  simp only [rowAt, mapCol]
  rcases lt_or_le i u.rows.length with h | h
  · rw [List.getD_eq_getElem _ _ (by simpa using h), List.getD_eq_getElem _ _ h,
      List.getElem_map]
  · rw [List.getD_eq_default _ _ (by simpa using h), List.getD_eq_default _ _ h]
    cases j <;> rfl

theorem cellAt_mapCol_ne (u : Table α) (j : ℕ) (f : Cell α → Cell α) (k i : ℕ)
    (hkj : k ≠ j) : cellAt (rowAt (mapCol u j f) i) k = cellAt (rowAt u i) k := by
  rw [rowAt_mapCol]
  exact updateCol_getD_ne f j k _ hkj

theorem cellAt_mapCol_self (u : Table α) (j : ℕ) (f : Cell α → Cell α) (i : ℕ)
    (hf : f none = none) : cellAt (rowAt (mapCol u j f) i) j = f (cellAt (rowAt u i) j) := by
  rw [rowAt_mapCol]
  exact updateCol_getD_self f j _ hf

theorem colCells_eq_of_cellAt (u v : Table α) (k : ℕ)
    (hlen : v.rows.length = u.rows.length)
    (h : ∀ i, cellAt (rowAt v i) k = cellAt (rowAt u i) k) : colCells v k = colCells u k := by
  apply List.ext_getElem?
  intro i
  simp only [colCells, List.getElem?_map]
  rcases lt_or_le i u.rows.length with hi | hi
  · have h1 : v.rows[i]? = some (rowAt v i) := by
      rw [List.getElem?_eq_getElem (by rwa [hlen]), rowAt,
        List.getD_eq_getElem _ _ (show i < v.rows.length by rwa [hlen])]
    have h2 : u.rows[i]? = some (rowAt u i) := by
      rw [List.getElem?_eq_getElem hi, rowAt, List.getD_eq_getElem _ _ hi]
    rw [h1, h2]
    show some (cellAt (rowAt v i) k) = some (cellAt (rowAt u i) k)
    exact congrArg some (h i)
  · rw [List.getElem?_eq_none (by rwa [hlen]), List.getElem?_eq_none hi]

theorem presentNums_eq_of_cellAt (u v : Table α) (k : ℕ)
    (hlen : v.rows.length = u.rows.length)
    (h : ∀ i, cellAt (rowAt v i) k = cellAt (rowAt u i) k) :
    presentNums v k = presentNums u k := by
  unfold presentNums
  rw [colCells_eq_of_cellAt u v k hlen h]

theorem foldl_header (F : Table α → ℕ → Table α)
    (hH : ∀ u j, (F u j).header = u.header) (js : List ℕ) (t : Table α) :
    (js.foldl F t).header = t.header := by
  induction js generalizing t with
  | nil => rfl
  | cons a as ih => rw [List.foldl_cons, ih (F t a), hH t a]

theorem foldl_colLocal (F : Table α → ℕ → Table α)
    (hL : ∀ u j, (F u j).rows.length = u.rows.length)
    (hC : ∀ u j k, k ≠ j → ∀ i, cellAt (rowAt (F u j) i) k = cellAt (rowAt u i) k)
    (js : List ℕ) (t : Table α) (j : ℕ) (hj : j ∉ js) :
    (∀ i, cellAt (rowAt (js.foldl F t) i) j = cellAt (rowAt t i) j) ∧
    (js.foldl F t).rows.length = t.rows.length := by
  induction js generalizing t with
  | nil => exact ⟨fun _ => rfl, rfl⟩
  | cons a as ih =>
    have hja : j ≠ a := fun h => hj (h ▸ List.mem_cons_self a as)
    have hjas : j ∉ as := fun h => hj (List.mem_cons_of_mem a h)
    rw [List.foldl_cons]
    obtain ⟨ihc, ihl⟩ := ih (F t a) hjas
    refine ⟨fun i => ?_, ?_⟩
    · rw [ihc i, hC t a j hja i]
    · rw [ihl, hL t a]

theorem zStdCol_header (sqrt : α → α) (u : Table α) (j : ℕ) :
    (zStdCol sqrt u j).header = u.header := by
  simp only [zStdCol]
  split <;> rfl

theorem minmaxStdCol_header (u : Table α) (j : ℕ) :
    (minmaxStdCol u j).header = u.header := by
  simp only [minmaxStdCol]
  split
  · split <;> rfl
  · rfl

theorem zStdCol_cellAt_ne (sqrt : α → α) (u : Table α) (j k i : ℕ) (hkj : k ≠ j) :
    cellAt (rowAt (zStdCol sqrt u j) i) k = cellAt (rowAt u i) k := by
  simp only [zStdCol]
  split
  · exact cellAt_mapCol_ne u j _ k i hkj
  · rfl

theorem minmaxStdCol_cellAt_ne (u : Table α) (j k i : ℕ) (hkj : k ≠ j) :
    cellAt (rowAt (minmaxStdCol u j) i) k = cellAt (rowAt u i) k := by
  simp only [minmaxStdCol]
  split
  · split
    · exact cellAt_mapCol_ne u j _ k i hkj
    · rfl
  · rfl

theorem numericIdxs_nodup (h : List (String × Dtype)) : (numericIdxs h).Nodup :=
  (List.nodup_range _).filter _

theorem mem_nodup_split {l : List ℕ} {j : ℕ} (hn : l.Nodup) (hj : j ∈ l) :
    ∃ pre post, l = pre ++ j :: post ∧ j ∉ pre ∧ j ∉ post := by
  obtain ⟨pre, post, rfl⟩ := List.append_of_mem hj
  have h2 := List.nodup_middle.mp hn
  rw [List.nodup_cons, List.mem_append] at h2
  push_neg at h2
  exact ⟨pre, post, rfl, h2.1.1, h2.1.2⟩

theorem roundTable4_rows_length [FloorRing α] (t : Table α) :
    (roundTable4 t).rows.length = t.rows.length :=
  foldl_rows_length _ (fun u j => mapCol_rows_length u j _) _ t

theorem replay_append_one (sqrt : α → α) (t0 : Table α) (h : List (Frag α)) (a : Frag α) :
    replay sqrt t0 (h ++ [a]) = fragStep sqrt t0 a (replay sqrt t0 h) := by
  rw [replay, List.foldl_append]
  rfl

theorem replay_append_two (sqrt : α → α) (t0 : Table α) (h : List (Frag α)) (a b : Frag α) :
    replay sqrt t0 (h ++ [a, b]) =
      fragStep sqrt t0 b (fragStep sqrt t0 a (replay sqrt t0 h)) := by
  rw [replay, List.foldl_append]
  rfl

theorem applySeq_cons [FloorRing α] (sqrt : α → α) (op : Op α) (ops : List (Op α))
    (s : Session α) : applySeq sqrt (op :: ops) s = applySeq sqrt ops (applyOp sqrt op s).1 :=
  rfl

/-- One analysis-free operation call preserves the invariant that replaying
the accumulated log against a fresh ingestion reproduces the current table:
every transform fragment reassigns `df` with exactly the expression the
session executed, comment lines do nothing, and the t-test fragments (like
the session's t-test) leave `df` alone. -/
theorem replay_invariant_step [FloorRing α] (sqrt : α → α) (t0 : Table α) (op : Op α)
    (hop : analysisFree op = true) (s : Session α)
    (hinv : replay sqrt t0 s.code_history = s.df) :
    replay sqrt t0 (applyOp sqrt op s).1.code_history = (applyOp sqrt op s).1.df := by
  cases op with
  | missing m fv =>
    simp only [applyOp, handle_missing_values]
    split_ifs
    · rw [replay_append_two, hinv]; rfl
    · rw [replay_append_two, hinv]; rfl
    · rw [replay_append_two, hinv]; rfl
    · cases fv with
      | none => exact hinv
      | some v => rw [replay_append_two, hinv]; rfl
    · exact hinv
  | outliers m θ =>
    simp only [applyOp, handle_outliers]
    split_ifs
    · exact hinv
    · rw [replay_append_two, hinv]; rfl
    · rw [replay_append_two, hinv]; rfl
    · rw [replay_append_one, hinv]; rfl
  | duplicates =>
    show replay sqrt t0 (s.code_history ++ [_, _]) = _
    rw [replay_append_two, hinv]; rfl
  | standardize m =>
    simp only [applyOp, standardize_data]
    split_ifs
    · exact hinv
    · rw [replay_append_two, hinv]; rfl
    · rw [replay_append_two, hinv]; rfl
    · rw [replay_append_one, hinv]; rfl
  | correlation => exact absurd hop (by simp [analysisFree])
  | chisq c1 c2 => exact absurd hop (by simp [analysisFree])
  | ttest c1 c2 v =>
    cases v with
    | none =>
      simp only [applyOp, t_test]
      split_ifs <;> first
        | exact hinv
        | (rw [replay_append_two, hinv]; rfl)
    | some x =>
      simp only [applyOp, t_test]
      split_ifs <;> first
        | exact hinv
        | (rw [replay_append_two, hinv]; rfl)

end Lemmas

/-- C5: for every successful transform, the row count of the result is at
most the input's row count for the filtering operations (drop-missing,
outlier removal, deduplication), and is preserved exactly by both
standardization methods and by the mean/median/literal fill methods of
missing-value handling. -/
theorem C5_row_counts [FloorRing α] (sqrt : α → α) (op : Op α) (s : Session α)
    (hsucc : (applyOp sqrt op s).2 = true) :
    (isFilterOp op = true → (applyOp sqrt op s).1.df.rows.length ≤ s.df.rows.length) ∧
    (isPreservingOp op = true → (applyOp sqrt op s).1.df.rows.length = s.df.rows.length) := by
  cases op with
  | missing m fv =>
    simp only [applyOp, handle_missing_values, isFilterOp, isPreservingOp] at hsucc ⊢
    split_ifs at hsucc ⊢ with h1 h2 h3 h4
    · subst h1
      exact ⟨fun _ => (List.filter_sublist _).length_le, fun hp => absurd hp (by decide)⟩
    · subst h2
      exact ⟨fun hf => absurd hf (by decide), fun _ => fillNumStat_rows_length mean? s.df⟩
    · subst h3
      exact ⟨fun hf => absurd hf (by decide), fun _ => fillNumStat_rows_length median? s.df⟩
    · subst h4
      cases fv with
      | none => simp at hsucc
      | some v =>
        exact ⟨fun hf => absurd hf (by decide), fun _ => fillAllTable_rows_length s.df v⟩
  | outliers m θ =>
    simp only [applyOp, handle_outliers] at hsucc ⊢
    split_ifs at hsucc ⊢ with h1 h2 h3
    · exact ⟨fun _ => (iqrFilterAll_rows_sublist s.df).length_le,
        fun hp => by simp [isPreservingOp] at hp⟩
    · exact ⟨fun _ => (zFilterAll_rows_sublist θ s.df).length_le,
        fun hp => by simp [isPreservingOp] at hp⟩
  | duplicates =>
    refine ⟨fun _ => (keepFirsts_sublist [] s.df.rows).length_le, fun hp => ?_⟩
    · simp [isPreservingOp] at hp
  | standardize m =>
    simp only [applyOp, standardize_data] at hsucc ⊢
    split_ifs at hsucc ⊢ with h1 h2 h3
    · exact ⟨fun hf => by simp [isFilterOp] at hf, fun _ => zStdAll_rows_length sqrt s.df⟩
    · exact ⟨fun hf => by simp [isFilterOp] at hf, fun _ => minmaxStdAll_rows_length s.df⟩
  | correlation =>
    refine ⟨fun hf => ?_, fun hp => ?_⟩
    · simp [isFilterOp] at hf
    · simp [isPreservingOp] at hp
  | ttest c1 c2 v =>
    refine ⟨fun hf => ?_, fun hp => ?_⟩
    · simp [isFilterOp] at hf
    · simp [isPreservingOp] at hp
  | chisq c1 c2 =>
    refine ⟨fun hf => ?_, fun hp => ?_⟩
    · simp [isFilterOp] at hf
    · simp [isPreservingOp] at hp

/-- C4 (amended): IQR outlier filtering treats a row whose cell in a numeric
column is absent as *failing* that column's bounds check (pandas `NaN >= lb`
and `NaN <= ub` are both false), so every row surviving the filter has a
present value in every numeric column; in particular rows with an absent
cell in any numeric column are always removed, not kept. -/
theorem C4_iqr_absent_fails (t : Table α) (j : ℕ) (hj : j ∈ numericIdxs t.header)
    (r : Row α) (hr : r ∈ (iqrFilterAll t).rows) : (cellNum (cellAt r j)).isSome :=
  foldl_iqr_present _ j t r hj hr

/-- C4 witness: on the one-row table `tblC` the hypotheses of
`C4_iqr_absent_fails` hold with `j = 0` and the surviving row `[1]`. -/
theorem C4_iqr_absent_fails_witness :
    (cellNum (cellAt [some (Sum.inl (1 : ℚ))] 0)).isSome := by
  refine C4_iqr_absent_fails tblC 0 (by decide) _ ?_
  have hb : iqrBounds ([1] : List ℚ) = some (1, 1) := by
    norm_num [quantile?, sortList, insertSorted, List.foldr, iqrBounds]
  norm_num [iqrFilterAll, numericIdxs, tblC, iqrFilterCol, hb, presentNums, colCells, cellAt,
    cellNum, List.filter, List.filterMap_cons]

/-- C4 counterexample to the claim as stated: on `tblB` (numeric column
1,2,3,4 and one row with an absent cell) the IQR bounds are `[-1/2, 11/2]`,
no present value is out of bounds, yet the absent-cell row is removed: the
call succeeds and only the four present rows remain, contradicting that a
row is removed only if some numeric column holds a present out-of-bounds
value. -/
theorem C4_counterexample :
    (handle_outliers (⟨tblB, []⟩ : Session ℚ) "iqr" 3).2 = true ∧
    (handle_outliers (⟨tblB, []⟩ : Session ℚ) "iqr" 3).1.df.rows =
      [[some (Sum.inl 1)], [some (Sum.inl 2)], [some (Sum.inl 3)], [some (Sum.inl 4)]] := by
  have hb : iqrBounds ([1, 2, 3, 4] : List ℚ) = some (-(1/2 : ℚ), 11/2) := by
    norm_num [quantile?, sortList, insertSorted, List.foldr, iqrBounds]
  constructor
  · rfl
  · show (iqrFilterAll tblB).rows = _
    norm_num [iqrFilterAll, numericIdxs, tblB, iqrFilterCol, hb, presentNums, colCells, cellAt,
      cellNum, List.filter, List.filterMap_cons]

/-- C9: z-score outlier filtering removes every row whose cell is absent in
a numeric column whose standard deviation (at that column's step of the
loop) is positive: the absent cell's standardized value is `NaN`, which
fails the strict comparison against the threshold, so the row does not
survive that column's filter (and later steps only remove further rows). -/
theorem C9_zscore_absent_removed (θ : α) (t : Table α) (pre post : List ℕ) (j : ℕ)
    (hsplit : numericIdxs t.header = pre ++ j :: post)
    (hv : 0 < sampleVarD (presentNums (pre.foldl (zFilterCol θ) t) j))
    (r : Row α) (hr : r ∈ (zFilterAll θ t).rows) :
    (cellNum (cellAt r j)).isSome := by
  rw [zFilterAll, hsplit, List.foldl_append, List.foldl_cons] at hr
  exact zFilterCol_mem_present θ _ j hv r
    ((foldl_rows_sublist _ (zFilterCol_rows_sublist θ) post _).subset hr)

/-- C9 witness: on `tblB` with threshold 3 the hypotheses of
`C9_zscore_absent_removed` hold (`var [1,2,3,4] = 5/3 > 0`) and the row
`[2]` survives the filter while the absent-cell row does not. -/
theorem C9_zscore_absent_removed_witness :
    (cellNum (cellAt [some (Sum.inl (2 : ℚ))] 0)).isSome := by
  have hm : meanD ([1, 2, 3, 4] : List ℚ) = 5/2 := by
    norm_num [meanD]
  have hv : sampleVarD ([1, 2, 3, 4] : List ℚ) = 5/3 := by
    norm_num [sampleVarD, meanD]
  refine C9_zscore_absent_removed 3 tblB [] [] 0 (by decide) ?_ _ ?_
  · show (0 : ℚ) < sampleVarD (presentNums tblB 0)
    norm_num [presentNums, colCells, cellAt, cellNum, tblB, List.filterMap_cons, hv]
  · norm_num [zFilterAll, numericIdxs, tblB, zFilterCol, presentNums, colCells, cellAt,
      cellNum, List.filter, List.filterMap_cons, hm, hv]

/-- Auxiliary induction for the round-trip law: the replay invariant is
preserved along any sequence of analysis-free operation calls. -/
theorem replay_invariant_seq [FloorRing α] (sqrt : α → α) (t0 : Table α) (ops : List (Op α))
    (hops : ∀ op ∈ ops, analysisFree op = true) (s : Session α)
    (hinv : replay sqrt t0 s.code_history = s.df) :
    replay sqrt t0 (applySeq sqrt ops s).code_history = (applySeq sqrt ops s).df := by
  induction ops generalizing s with
  | nil => exact hinv
  | cons op ops ih =>
    rw [applySeq_cons]
    exact ih (fun o ho => hops o (List.mem_cons_of_mem _ ho)) _
      (replay_invariant_step sqrt t0 op (hops op (List.mem_cons_self _ _)) s hinv)

/-- C1 (amended): for every loaded table and every sequence of operation
calls that contains no correlation analysis and no chi-square test,
concatenating the accumulated log's code fragments in order and re-running
that script from scratch against a fresh ingestion of the original file
yields exactly the session's current Table.  (The claim's extension to
sequences ending in an analysis is refuted separately: the analysis
fragments only print their matrix and never reassign `df`, while the
session replaces its Table by the matrix.) -/
theorem C1_round_trip_row_ops [FloorRing α] (sqrt : α → α) (t0 : Table α) (fn : String)
    (ops : List (Op α)) (hops : ∀ op ∈ ops, analysisFree op = true) :
    replay sqrt t0 (applySeq sqrt ops (initSession t0 fn)).code_history =
      (applySeq sqrt ops (initSession t0 fn)).df :=
  replay_invariant_seq sqrt t0 ops hops _ rfl

/-- C1 witness: a concrete two-step session (deduplicate, then z-score
standardize) whose replayed script reproduces the current table. -/
theorem C1_round_trip_row_ops_witness :
    replay (fun x => x) tblC
        (applySeq (fun x => x) [Op.duplicates, Op.standardize "zscore"]
          (initSession tblC "data.xlsx")).code_history =
      (applySeq (fun x => x) [Op.duplicates, Op.standardize "zscore"]
        (initSession tblC "data.xlsx")).df :=
  C1_round_trip_row_ops (fun x => x) tblC "data.xlsx" _ (by decide)

/-- C1 counterexample to the claim as stated: after a successful correlation
analysis on `tblA` (three rows, two numeric columns), replaying the
accumulated script yields the original three-row table — the correlation
fragment only prints the matrix and never reassigns `df` — while the
session's current Table is the 2×2 rounded correlation matrix; the two
differ. -/
theorem C1_counterexample :
    (applyOp Real.sqrt Op.correlation (initSession tblA "data.xlsx")).2 = true ∧
    replay Real.sqrt tblA
        (applyOp Real.sqrt Op.correlation (initSession tblA "data.xlsx")).1.code_history ≠
      (applyOp Real.sqrt Op.correlation (initSession tblA "data.xlsx")).1.df := by
  refine ⟨rfl, fun h => ?_⟩
  have hlen : (replay Real.sqrt tblA
      (applyOp Real.sqrt Op.correlation (initSession tblA "data.xlsx")).1.code_history).rows.length =
      ((applyOp Real.sqrt Op.correlation (initSession tblA "data.xlsx")).1.df).rows.length :=
    congrArg (fun t => t.rows.length) h
  have h3 : (replay Real.sqrt tblA
      (applyOp Real.sqrt Op.correlation (initSession tblA "data.xlsx")).1.code_history).rows.length = 3 := rfl
  have h2 : ((applyOp Real.sqrt Op.correlation (initSession tblA "data.xlsx")).1.df).rows.length = 2 := by
    show (roundTable4 (corrTable Real.sqrt tblA)).rows.length = 2
    rw [roundTable4_rows_length]
    show ((numericIdxs tblA.header).map _).length = 2
    rw [List.length_map]
    decide
  rw [h3, h2] at hlen
  exact absurd hlen (by decide)

/-- C2 (amended): a failing operation call always leaves the session's Table
unchanged, and leaves the Operation Log unchanged *except* that an outlier
or standardization call with an unrecognised method tag on a table with at
least one numeric column appends exactly the label comment before failing
(the source appends the label at app.py line 126 resp. 194 and only then
raises on the unassigned local `code`); `failAppend` is `[]` in every other
failing case. -/
theorem C2_failure_state [FloorRing α] (sqrt : α → α) (op : Op α) (s : Session α)
    (hfail : (applyOp sqrt op s).2 = false) :
    (applyOp sqrt op s).1 = ⟨s.df, s.code_history ++ failAppend op s⟩ := by
  cases op with
  | missing m fv =>
    simp only [applyOp, handle_missing_values] at hfail ⊢
    split_ifs at hfail ⊢ with h1 h2 h3 h4
    · cases fv with
      | none => simp [failAppend]
      | some v => simp at hfail
    · simp [failAppend]
  | outliers m θ =>
    simp only [applyOp, handle_outliers] at hfail ⊢
    split_ifs at hfail ⊢ with h1 h2 h3
    · simp [failAppend, h1]
    · simp [failAppend, h1, h2, h3]
  | duplicates =>
    simp only [applyOp, handle_duplicates] at hfail
    exact Bool.noConfusion hfail
  | standardize m =>
    simp only [applyOp, standardize_data] at hfail ⊢
    split_ifs at hfail ⊢ with h1 h2 h3
    · simp [failAppend, h1]
    · simp [failAppend, h1, h2, h3]
  | correlation =>
    simp only [applyOp, correlation_analysis] at hfail ⊢
    split_ifs at hfail ⊢ with h1
    · simp [failAppend]
  | ttest c1 c2 v =>
    cases v with
    | none =>
      simp only [applyOp, t_test] at hfail ⊢
      split_ifs at hfail ⊢ <;> simp [failAppend]
    | some x =>
      simp only [applyOp, t_test] at hfail ⊢
      split_ifs at hfail ⊢ <;> simp [failAppend]
  | chisq c1 c2 =>
    simp only [applyOp, chi_square_test] at hfail ⊢
    split_ifs at hfail ⊢ with h1
    · simp [failAppend]

/-- C2 witness: the missing-value handler with an unknown method tag fails
and leaves the session exactly as it was. -/
theorem C2_failure_state_witness :
    (applyOp (fun x => x) (Op.missing "bogus" none) (⟨tblC, []⟩ : Session ℚ)).1 =
      ⟨tblC, []⟩ := by
  have h := C2_failure_state (fun x => x) (Op.missing "bogus" none) (⟨tblC, []⟩ : Session ℚ) rfl
  simpa using h

/-- C2 counterexample to the claim as stated: a standardization call with the
unknown method tag `"foo"` on a table with a numeric column fails, yet the
Operation Log is no longer empty — the label comment was appended. -/
theorem C2_counterexample :
    (applyOp (fun x => x) (Op.standardize "foo") (⟨tblC, []⟩ : Session ℚ)).2 = false ∧
    (applyOp (fun x => x) (Op.standardize "foo") (⟨tblC, []⟩ : Session ℚ)).1.code_history ≠
      [] := by
  refine ⟨rfl, ?_⟩
  show ([] ++ [Frag.comment ("# 数据标准化 - " ++ "foo")] : List (Frag ℚ)) ≠ []
  simp

/-- C3 (amended): the t-test variant is selected solely by the presence
(Python truthiness) of the second column: with no truthy second column and
no comparison value the call is a validation failure that leaves the
session unchanged; with a truthy second column the two-sample test runs and
the comparison value is ignored entirely (the result does not depend on
it); with no truthy second column and a comparison value present, a
successful call runs the one-sample test.  Supplying both a valid second
column and a comparison value is *not* an error (see the counterexample). -/
theorem C3_variant_selection (sqrt : α → α) (s : Session α) (c1 : String)
    (c2 : Option String) (v : Option α) :
    (isTruthy c2 = false → v = none →
      (t_test sqrt s c1 c2 v).2.1 = false ∧ (t_test sqrt s c1 c2 v).1 = s) ∧
    (isTruthy c2 = true → ∀ v', t_test sqrt s c1 c2 v = t_test sqrt s c1 c2 v') ∧
    (isTruthy c2 = false → ∀ x, v = some x → (t_test sqrt s c1 c2 v).2.1 = true →
      (t_test sqrt s c1 c2 v).2.2 =
        some (tOneSample sqrt (presentNums s.df (colIdxOf s.df.header c1)) x)) := by
  refine ⟨fun ht hv => ?_, fun ht v' => ?_, fun ht x hv hsucc => ?_⟩
  · subst hv
    simp only [t_test, ht]
    split_ifs <;> simp_all
  · simp only [t_test, ht]
    split_ifs <;> rfl
  · subst hv
    simp only [t_test, ht] at hsucc ⊢
    split_ifs at hsucc ⊢ <;> simp_all

/-- C3 witness: supplying neither a second column nor a comparison value is
a validation failure that leaves the session unchanged. -/
theorem C3_variant_selection_witness :
    (t_test Real.sqrt (⟨tblT, []⟩ : Session ℝ) "a" none none).2.1 = false ∧
    (t_test Real.sqrt (⟨tblT, []⟩ : Session ℝ) "a" none none).1 = ⟨tblT, []⟩ :=
  (C3_variant_selection Real.sqrt ⟨tblT, []⟩ "a" none none).1 rfl rfl

/-- C3 counterexample to the claim as stated: supplying a valid numeric
second column `"b"` *together with* a comparison value 5 is not a
validation error — the call succeeds (the two-sample branch runs and the
value is ignored). -/
theorem C3_counterexample :
    (t_test Real.sqrt (⟨tblT, []⟩ : Session ℝ) "a" (some "b") (some 5)).2.1 = true := rfl

/-- C8: on a successful two-sample t-test call the returned statistic is the
pooled-variance statistic of the two columns with absent values excluded
(`tTwoSample` is the literal formula of app.py lines 249-258); and for any
two samples with identical means (and positive radicand, i.e. positive
pooled variance scaled by `1/n1 + 1/n2`) the t statistic is 0. -/
theorem C8_two_sample_t (sqrt : α → α) (s : Session α) (c1 c2 : String) (v : Option α)
    (ht : isTruthy (some c2) = true)
    (hsucc : (t_test sqrt s c1 (some c2) v).2.1 = true) :
    (t_test sqrt s c1 (some c2) v).2.2 =
      some (tTwoSample sqrt (presentNums s.df (colIdxOf s.df.header c1))
        (presentNums s.df (colIdxOf s.df.header c2))) ∧
    ∀ xs ys : List α, meanD xs = meanD ys →
      0 < ((((xs.length : α) - 1) * sampleVarD xs + ((ys.length : α) - 1) * sampleVarD ys) /
            ((xs.length : α) + (ys.length : α) - 2)) *
          (1 / (xs.length : α) + 1 / (ys.length : α)) →
      tTwoSample sqrt xs ys = 0 := by
  constructor
  · simp only [t_test, ht] at hsucc ⊢
    split_ifs at hsucc ⊢ <;> simp_all
  · intro xs ys hm _
    simp only [tTwoSample, hm, sub_self, zero_div]

/-- C8 witness: on `tblT` the two-sample t-test of columns `a` (1,2,3) and
`b` (2,2,2) succeeds, both samples have mean 2, the radicand is 1/3 > 0,
and the returned statistic is 0. -/
theorem C8_two_sample_t_witness :
    (t_test Real.sqrt (⟨tblT, []⟩ : Session ℝ) "a" (some "b") none).2.2 =
      some (tTwoSample Real.sqrt (presentNums tblT (colIdxOf tblT.header "a"))
        (presentNums tblT (colIdxOf tblT.header "b"))) ∧
    tTwoSample Real.sqrt [(1 : ℝ), 2, 3] [2, 2, 2] = 0 := by
  have h := C8_two_sample_t Real.sqrt (⟨tblT, []⟩ : Session ℝ) "a" "b" none rfl rfl
  refine ⟨h.1, ?_⟩
  refine h.2 [(1 : ℝ), 2, 3] [2, 2, 2] ?_ ?_
  · norm_num [meanD]
  · norm_num [sampleVarD, meanD]

/-- C10: after a successful correlation analysis the session's current Table
is exactly the Pearson correlation matrix of the numeric columns with every
entry rounded to 4 decimal places; the export serialises this rounded
matrix, and every subsequent operation call acts on this matrix (the new
session state consists of precisely the rounded matrix and the extended
log). -/
theorem C10_correlation_result [FloorRing α] (sqrt : α → α) (s : Session α)
    (hsucc : (applyOp sqrt Op.correlation s).2 = true) :
    (applyOp sqrt Op.correlation s).1.df = roundTable4 (corrTable sqrt s.df) ∧
    exportTable (applyOp sqrt Op.correlation s).1 = roundTable4 (corrTable sqrt s.df) ∧
    ∀ op : Op α, applyOp sqrt op (applyOp sqrt Op.correlation s).1 =
      applyOp sqrt op ⟨roundTable4 (corrTable sqrt s.df),
        s.code_history ++ [Frag.comment "# 相关性分析", Frag.corrFrag]⟩ := by
  have hcond : ¬ (numericIdxs s.df.header).length < 2 := by
    intro hc
    simp only [applyOp, correlation_analysis, if_pos hc] at hsucc
    exact Bool.noConfusion hsucc
  simp only [applyOp, correlation_analysis, if_neg hcond]
  exact ⟨trivial, rfl, fun _ => trivial⟩

/-- C10 witness: on `tblA` (two numeric columns) the correlation analysis
succeeds and the session's table becomes the rounded correlation matrix. -/
theorem C10_correlation_result_witness :
    (applyOp Real.sqrt Op.correlation (⟨tblA, []⟩ : Session ℝ)).1.df =
      roundTable4 (corrTable Real.sqrt tblA) :=
  (C10_correlation_result Real.sqrt (⟨tblA, []⟩ : Session ℝ) rfl).1

/-- C6: z-score standardization replaces each value of a numeric column with
`(value − mean)/std` when the standard deviation is positive (equivalently,
when the sample variance is positive) and leaves a column whose standard
deviation is not positive unmodified; min-max standardization replaces each
value with `(value − min)/(max − min)` when `max > min` and leaves a column
with `max = min` unmodified; the divisors (`std`, respectively `max − min`)
are nonzero whenever a division is performed; absent cells stay absent (the
`map` on the numeric cell value); and non-numeric columns and the header
are unchanged. -/
theorem C6_standardize_safety (sqrt : α → α) (hsq : ∀ x : α, 0 < x → 0 < sqrt x)
    (t : Table α) (j : ℕ) :
    (zStdAll sqrt t).header = t.header ∧
    (minmaxStdAll t).header = t.header ∧
    (j ∈ numericIdxs t.header →
      (0 < sampleVarD (presentNums t j) →
        sqrt (sampleVarD (presentNums t j)) ≠ 0 ∧
        ∀ i, cellAt (rowAt (zStdAll sqrt t) i) j =
          (cellNum (cellAt (rowAt t i) j)).map (fun x =>
            Sum.inl ((x - meanD (presentNums t j)) / sqrt (sampleVarD (presentNums t j))))) ∧
      (¬ 0 < sampleVarD (presentNums t j) →
        ∀ i, cellAt (rowAt (zStdAll sqrt t) i) j = cellAt (rowAt t i) j) ∧
      (∀ mn mx, (presentNums t j).min? = some mn → (presentNums t j).max? = some mx →
        (mn < mx →
          mx - mn ≠ 0 ∧
          ∀ i, cellAt (rowAt (minmaxStdAll t) i) j =
            (cellNum (cellAt (rowAt t i) j)).map (fun x => Sum.inl ((x - mn) / (mx - mn)))) ∧
        (¬ mn < mx →
          ∀ i, cellAt (rowAt (minmaxStdAll t) i) j = cellAt (rowAt t i) j))) ∧
    (j ∉ numericIdxs t.header →
      (∀ i, cellAt (rowAt (zStdAll sqrt t) i) j = cellAt (rowAt t i) j) ∧
      (∀ i, cellAt (rowAt (minmaxStdAll t) i) j = cellAt (rowAt t i) j)) := by
  have hCz : ∀ (u : Table α) (a k : ℕ), k ≠ a → ∀ i,
      cellAt (rowAt (zStdCol sqrt u a) i) k = cellAt (rowAt u i) k :=
    fun u a k hk i => zStdCol_cellAt_ne sqrt u a k i hk
  have hCm : ∀ (u : Table α) (a k : ℕ), k ≠ a → ∀ i,
      cellAt (rowAt (minmaxStdCol u a) i) k = cellAt (rowAt u i) k :=
    fun u a k hk i => minmaxStdCol_cellAt_ne u a k i hk
  refine ⟨foldl_header _ (zStdCol_header sqrt) _ t, foldl_header _ minmaxStdCol_header _ t,
    fun hj => ?_, fun hj => ?_⟩
  · obtain ⟨pre, post, hsplit, hjpre, hjpost⟩ :=
      mem_nodup_split (numericIdxs_nodup t.header) hj
    -- z-score part
    obtain ⟨hzc, hzl⟩ := foldl_colLocal (zStdCol sqrt) (zStdCol_rows_length sqrt) hCz pre t j hjpre
    have hzPN : presentNums (pre.foldl (zStdCol sqrt) t) j = presentNums t j :=
      presentNums_eq_of_cellAt t _ j hzl hzc
    obtain ⟨hmc, hml⟩ := foldl_colLocal minmaxStdCol minmaxStdCol_rows_length hCm pre t j hjpre
    have hmPN : presentNums (pre.foldl minmaxStdCol t) j = presentNums t j :=
      presentNums_eq_of_cellAt t _ j hml hmc
    have hzAll : zStdAll sqrt t =
        post.foldl (zStdCol sqrt) (zStdCol sqrt (pre.foldl (zStdCol sqrt) t) j) := by
      rw [zStdAll, hsplit, List.foldl_append, List.foldl_cons]
    have hmAll : minmaxStdAll t =
        post.foldl minmaxStdCol (minmaxStdCol (pre.foldl minmaxStdCol t) j) := by
      rw [minmaxStdAll, hsplit, List.foldl_append, List.foldl_cons]
    refine ⟨fun hv => ⟨ne_of_gt (hsq _ hv), fun i => ?_⟩, fun hv => fun i => ?_,
      fun mn mx hmn hmx => ⟨fun hlt => ⟨?_, fun i => ?_⟩, fun hlt => fun i => ?_⟩⟩
    · -- positive variance: the column is transformed
      have hstep : zStdCol sqrt (pre.foldl (zStdCol sqrt) t) j =
          mapCol (pre.foldl (zStdCol sqrt) t) j (fun c => (cellNum c).map (fun x =>
            Sum.inl ((x - meanD (presentNums t j)) / sqrt (sampleVarD (presentNums t j))))) := by
        simp only [zStdCol, hzPN, if_pos hv]
      rw [hzAll, hstep,
        (foldl_colLocal (zStdCol sqrt) (zStdCol_rows_length sqrt) hCz post _ j hjpost).1 i,
        cellAt_mapCol_self _ _ _ _ rfl, hzc i]
    · -- non-positive variance: the column is unmodified
      have hstep : zStdCol sqrt (pre.foldl (zStdCol sqrt) t) j = pre.foldl (zStdCol sqrt) t := by
        simp only [zStdCol, hzPN, if_neg hv]
      rw [hzAll, hstep,
        (foldl_colLocal (zStdCol sqrt) (zStdCol_rows_length sqrt) hCz post _ j hjpost).1 i,
        hzc i]
    · exact sub_ne_zero_of_ne (ne_of_gt hlt)
    · -- max > min: the column is transformed
      have hstep : minmaxStdCol (pre.foldl minmaxStdCol t) j =
          mapCol (pre.foldl minmaxStdCol t) j (fun c => (cellNum c).map (fun x =>
            Sum.inl ((x - mn) / (mx - mn)))) := by
        simp only [minmaxStdCol, hmPN, hmn, hmx, if_pos hlt]
      rw [hmAll, hstep,
        (foldl_colLocal minmaxStdCol minmaxStdCol_rows_length hCm post _ j hjpost).1 i,
        cellAt_mapCol_self _ _ _ _ rfl, hmc i]
    · -- max = min: the column is unmodified
      have hstep : minmaxStdCol (pre.foldl minmaxStdCol t) j = pre.foldl minmaxStdCol t := by
        simp only [minmaxStdCol, hmPN, hmn, hmx, if_neg hlt]
      rw [hmAll, hstep,
        (foldl_colLocal minmaxStdCol minmaxStdCol_rows_length hCm post _ j hjpost).1 i,
        hmc i]
  · exact ⟨(foldl_colLocal (zStdCol sqrt) (zStdCol_rows_length sqrt) hCz _ t j hj).1,
      (foldl_colLocal minmaxStdCol minmaxStdCol_rows_length hCm _ t j hj).1⟩

/-- C6 witness: on `tblA` (numeric column 0 with values 1,2,3, variance 1),
z-score standardization transforms column 0 by `(x − 2)/√1` and the divisor
is nonzero; the hypotheses of `C6_standardize_safety` are discharged at
`α := ℝ`, `sqrt := Real.sqrt`. -/
theorem C6_standardize_safety_witness :
    Real.sqrt (sampleVarD (presentNums tblA 0)) ≠ 0 ∧
    ∀ i, cellAt (rowAt (zStdAll Real.sqrt tblA) i) 0 =
      (cellNum (cellAt (rowAt tblA i) 0)).map (fun x =>
        Sum.inl ((x - meanD (presentNums tblA 0)) / Real.sqrt (sampleVarD (presentNums tblA 0)))) := by
  have hv : (0 : ℝ) < sampleVarD (presentNums tblA 0) := by
    norm_num [presentNums, colCells, cellAt, cellNum, tblA, List.filterMap_cons,
      sampleVarD, meanD]
  exact ((C6_standardize_safety Real.sqrt (fun x hx => Real.sqrt_pos.mpr hx) tblA 0).2.2.1
    (by decide)).1 hv

/-- C5 witness: on the one-row table `tblC`, deduplication (a filtering
operation) keeps at most one row and z-score standardization preserves the
row count exactly. -/
theorem C5_row_counts_witness :
    (applyOp (fun x => x) Op.duplicates (⟨tblC, []⟩ : Session ℚ)).1.df.rows.length ≤ 1 ∧
    (applyOp (fun x => x) (Op.standardize "zscore")
      (⟨tblC, []⟩ : Session ℚ)).1.df.rows.length = 1 := by
  constructor
  · exact (C5_row_counts (fun x => x) Op.duplicates ⟨tblC, []⟩ rfl).1 rfl
  · exact (C5_row_counts (fun x => x) (Op.standardize "zscore") ⟨tblC, []⟩ rfl).2 rfl

/-- C7: deduplication removes exactly the rows that are exact duplicates of
an earlier row across all columns (the rows of the result are those
described by `dedupSpec`: each kept row is the first occurrence of its
value and the relative order is preserved — the result is a sublist of the
input), and it is idempotent: applying the duplicate handler twice yields
the same Table as applying it once. -/
theorem C7_deduplication (s : Session α) :
    (handle_duplicates s).1.df.rows = dedupSpec s.df.rows ∧
    ((handle_duplicates s).1.df.rows).Sublist s.df.rows ∧
    (handle_duplicates (handle_duplicates s).1).1.df = (handle_duplicates s).1.df := by
  refine ⟨?_, ?_, ?_⟩
  · exact keepFirsts_eq_dedupSpecAux [] [] s.df.rows (fun x => Iff.rfl)
  · exact keepFirsts_sublist [] s.df.rows
  · show dedupTable (dedupTable s.df) = dedupTable s.df
    simp only [dedupTable]
    exact congrArg _ (keepFirsts_idem s.df.rows)

end DataProc
